import Mathlib

/-!
# Verification of the C-shell process/job-control engine

Shallow embedding of the shell's executor and job table
(`src/src/jobs.c`, and the executor compiled into `src/src/hop.c`:
`run_pipeline`, `run_pipeline_async`, `run_builtin`,
`execute_first_cmd_group`), together with proofs of the specified
properties of pipelines, redirections, the job table and the
`fg`/`bg` builtins.

Machine-level effects (fork, dup2, waitpid, kill, tcsetpgrp) are
modelled as explicit data: the per-stage wait outcomes are an oracle
`Int → WaitOutcome` (indexed by pid), and the observable actions of
each operation (messages printed, signals sent, terminal transfers,
wait system calls issued) are returned as values.
-/

namespace CShell

/-- Outcome of one `waitpid` call on a child, as distinguished by the
source: `w == 0` (still running, only possible with `WNOHANG`),
`w == -1` (error), `WIFSTOPPED`, `WIFCONTINUED`, `WIFEXITED` with its
exit status, or termination by a signal. -/
inductive WaitOutcome where
  | running
  | werr
  | stoppedW
  | continuedW
  | exited (code : Nat)
  | signaled
deriving DecidableEq, Repr

/-- One pipeline stage as tracked by the job table: parallel entries of
`pids[]`, `finished[]`, `stopped[]`, `stage_names[]` in `jobs.c`. -/
structure StageRec where
  pid : Int
  finished : Bool
  stopped : Bool
  name : String
deriving DecidableEq, Repr

instance : Inhabited StageRec := ⟨⟨-1, false, false, ""⟩⟩

/-- `BgJob` from `jobs.c` (the `npids` field is `stages.length`). -/
structure BgJob where
  job_num : Nat
  stages : List StageRec
  cmd_name : String
  last_status : Nat
deriving DecidableEq, Repr

instance : Inhabited BgJob := ⟨⟨0, [], "", 0⟩⟩

/-- The mutable globals of `jobs.c`: the background table
(`bg_jobs`/`bg_job_count`), the job-number counter, and the foreground
record (`fg_pgid`, `fg_pids`/`fg_count`, `fg_name`). -/
structure JobsState where
  bg_jobs : List BgJob
  next_job_number : Nat
  fg_pgid : Int
  fg_pids : List Int
  fg_name : String
deriving DecidableEq, Repr

/-- `MAX_CMDS` in `jobs.c` and the executor. -/
def MAX_CMDS : Nat := 16

/-- `MAX_BG_JOBS` in `jobs.c`. -/
def MAX_BG_JOBS : Nat := 64

/-- Initial state of the job module: empty table, counter at 1, no
foreground job. -/
def initState : JobsState :=
  { bg_jobs := [], next_job_number := 1, fg_pgid := -1, fg_pids := [], fg_name := "" }

/-- `jobs_set_foreground` (jobs.c): clamps the pid count to `MAX_CMDS`. -/
def jobs_set_foreground (pgid : Int) (pids : List Int) (name : String)
    (s : JobsState) : JobsState :=
  { s with fg_pgid := pgid, fg_pids := pids.take MAX_CMDS, fg_name := name }

/-- `jobs_clear_foreground` (jobs.c). -/
def jobs_clear_foreground (s : JobsState) : JobsState :=
  { s with fg_pgid := -1, fg_pids := [], fg_name := "" }

/-- Display name used when registering: `fg_name[0] ? fg_name : "?"`. -/
def orQmark (name : String) : String := if name = "" then "?" else name

/-- `jobs_move_foreground_to_background_stopped` (jobs.c): moves the whole
foreground pid list into the table as one job with every stage marked
stopped; fails with -1 (leaving the state untouched) when there is no
foreground job or the table is full. -/
def jobs_move_foreground_to_background_stopped (s : JobsState) :
    Int × JobsState :=
  if s.fg_pgid = -1 ∨ s.fg_pids.length = 0 then (-1, s)
  else if MAX_BG_JOBS ≤ s.bg_jobs.length then (-1, s)
  else
    let nm := orQmark s.fg_name
    let job : BgJob :=
      { job_num := s.next_job_number
        stages := s.fg_pids.map (fun p => ⟨p, false, true, nm⟩)
        cmd_name := nm
        last_status := 0 }
    (Int.ofNat s.next_job_number,
      jobs_clear_foreground
        { s with bg_jobs := s.bg_jobs ++ [job],
                 next_job_number := s.next_job_number + 1 })

/-- `jobs_add_background` (jobs.c).  `count` is the explicit stage-count
argument; the stage pids are read from `pids` (out-of-range reads are
modelled as 0, they do not occur on the real call sites, where
`count = pids.length`).  `stage_names` entries may be null (`none`);
an empty list models a null `stage_names` pointer.  Fails with -1 and
an unchanged state on a non-positive count or a full table. -/
def jobs_add_background (pids : List Int) (count : Int)
    (stage_names : List (Option String)) (s : JobsState) : Int × JobsState :=
  if count ≤ 0 then (-1, s)
  else if MAX_BG_JOBS ≤ s.bg_jobs.length then (-1, s)
  else
    let n := count.toNat
    let cmd := ((stage_names.getD 0 none).getD "?")
    let job : BgJob :=
      { job_num := s.next_job_number
        stages := (List.range n).map
          (fun i => ⟨pids.getD i 0, false, false,
                     (stage_names.getD i none).getD cmd⟩)
        cmd_name := cmd
        last_status := 0 }
    (Int.ofNat s.next_job_number,
      { s with bg_jobs := s.bg_jobs ++ [job],
               next_job_number := s.next_job_number + 1 })

/-- C9: failed registrations are atomic.  `jobs_add_background` called
with a non-positive count, or against a full table, returns -1 and
leaves the table, its count and the job-number counter untouched;
`jobs_move_foreground_to_background_stopped` likewise fails without any
mutation when no foreground job is recorded or the table is full. -/
theorem jobs_register_failure_atomic
    (s : JobsState) (pids : List Int) (count : Int)
    (names : List (Option String))
    (hadd : count ≤ 0 ∨ MAX_BG_JOBS ≤ s.bg_jobs.length)
    (hmove : s.fg_pgid = -1 ∨ s.fg_pids.length = 0 ∨ MAX_BG_JOBS ≤ s.bg_jobs.length) :
    jobs_add_background pids count names s = (-1, s) ∧
    jobs_move_foreground_to_background_stopped s = (-1, s) := by
  constructor
  · rcases hadd with h | h
    · simp [jobs_add_background, h]
    · unfold jobs_add_background
      rcases le_or_lt count 0 with h0 | h0
      · simp [h0]
      · rw [if_neg (by omega), if_pos h]
  · unfold jobs_move_foreground_to_background_stopped
    rcases hmove with h | h | h
    · simp [h]
    · simp [h]
    · rcases Decidable.em (s.fg_pgid = -1 ∨ s.fg_pids.length = 0) with h1 | h1
      · rw [if_pos h1]
      · rw [if_neg h1, if_pos h]

/-- Witness for C9: a concrete state with a recorded foreground job and
room in the table still fails atomically when the count is 0, and a
concrete full table rejects a valid registration. -/
theorem jobs_register_failure_atomic_witness :
    ((0 : Int) ≤ 0 ∨ MAX_BG_JOBS ≤ ([] : List BgJob).length) ∧
    jobs_add_background [5] 0 [some "x"] initState = (-1, initState) ∧
    jobs_move_foreground_to_background_stopped initState = (-1, initState) := by
  refine ⟨Or.inl (by decide), ?_⟩
  have h := jobs_register_failure_atomic initState [5] 0 [some "x"]
    (Or.inl (by decide)) (Or.inl (by decide))
  exact h

/-! ## Stage scanning shared by `jobs_poll` and the `fg` wait loop

Both loops in `jobs.c` visit every not-yet-finished stage of a job,
issue `waitpid(pid, WNOHANG | WUNTRACED | WCONTINUED)` and handle the
result identically: `w == 0` keeps the job alive (`all_done = 0`),
`w == -1` is skipped (it does not keep the job alive), a stop marks the
stage stopped, a continue clears the mark, and a termination marks the
stage finished; only a termination of the stage with index
`npids - 1` yields a status update (0 iff `WIFEXITED && WEXITSTATUS == 0`).
`jobs_poll` writes the status update into `job->last_status`, while the
`fg` loop writes it into a local `status_code`. -/

/-- One stage step of either loop.  Returns the updated stage, whether
the stage keeps the job from being "all done" this pass, whether a stop
was seen, and the status update produced at the last index `n - 1`. -/
def scan_stage (f : Int → WaitOutcome) (n i : Nat) (st : StageRec) :
    StageRec × Bool × Bool × Option Nat :=
  if st.finished then (st, false, false, none)
  else
    match f st.pid with
    | .running => (st, true, false, none)
    | .werr => (st, false, false, none)
    | .stoppedW => ({ st with stopped := true }, true, true, none)
    | .continuedW => ({ st with stopped := false }, true, false, none)
    | .exited c =>
        ({ st with finished := true, stopped := false }, false, false,
          if i = n - 1 then some (if c = 0 then 0 else 1) else none)
    | .signaled =>
        ({ st with finished := true, stopped := false }, false, false,
          if i = n - 1 then some 1 else none)

/-- Scan the stage list from index `i`, threading the three summary
values (`all_done`, `saw a stop`, last-index status update). -/
def scan_stages (f : Int → WaitOutcome) (n : Nat) :
    Nat → List StageRec → List StageRec × Bool × Bool × Option Nat
  | _, [] => ([], true, false, none)
  | i, st :: rest =>
    let r := scan_stage f n i st
    let rr := scan_stages f n (i + 1) rest
    (r.1 :: rr.1, (!r.2.1 && rr.2.1), (r.2.2.1 || rr.2.2.1),
      match rr.2.2.2 with
      | some v => some v
      | none => r.2.2.2)

/-- One `jobs_poll` pass over a single job (the inner loop of
`jobs_poll` in jobs.c): updates the stage flags and `last_status`, and
reports whether the job is now all done. -/
def poll_job (f : Int → WaitOutcome) (job : BgJob) : BgJob × Bool :=
  let r := scan_stages f job.stages.length 0 job.stages
  ({ job with stages := r.1, last_status := (r.2.2.2).getD job.last_status },
    r.2.1)

/-- Pid of a job's last stage (`job->pids[job->npids-1]`). -/
def lastPid (job : BgJob) : Int := (job.stages.getLastD default).pid

/-- The completion message printed by `jobs_poll` when a job is removed. -/
def doneMsg (job : BgJob) : String :=
  job.cmd_name ++ " with pid " ++ toString (lastPid job) ++
    (if job.last_status = 0 then " exited normally" else " exited abnormally")

/-- The job-list part of `jobs_poll`: each job is polled in order; a job
whose stages are all done is removed and its message printed, the rest
are kept (updated in place). -/
def jobs_poll_list (f : Int → WaitOutcome) :
    List BgJob → List BgJob × List String
  | [] => ([], [])
  | job :: rest =>
    let r := poll_job f job
    let rr := jobs_poll_list f rest
    if r.2 then (rr.1, doneMsg r.1 :: rr.2)
    else (r.1 :: rr.1, rr.2)

/-- `jobs_poll` (jobs.c): poll every background job once, removing the
completed ones and returning the printed messages. -/
def jobs_poll (f : Int → WaitOutcome) (s : JobsState) :
    JobsState × List String :=
  let r := jobs_poll_list f s.bg_jobs
  ({ s with bg_jobs := r.1 }, r.2)

/-! ## Job lookup and the `bg` builtin -/

/-- `find_job_index` (jobs.c): first index whose `job_num` equals the
requested number. -/
def find_job_index (s : JobsState) (jobnum : Int) : Option Nat :=
  s.bg_jobs.findIdx? (fun j => Int.ofNat j.job_num = jobnum)

/-- `most_recent_job_index` (jobs.c): the last slot, if any. -/
def most_recent_job_index (s : JobsState) : Option Nat :=
  if s.bg_jobs.length = 0 then none else some (s.bg_jobs.length - 1)

/-- Job selection shared by `fg` and `bg`:
`idx = jobnum ? find_job_index(jobnum) : most_recent_job_index()`. -/
def job_select (s : JobsState) (jobnum : Int) : Option Nat :=
  if jobnum = 0 then most_recent_job_index s else find_job_index s jobnum

/-- Result of a `bg` or `fg` builtin call: final state, messages printed
in order, pgids signalled with SIGCONT (as `kill(-pgid)` targets), and
the returned status (`none` models an `fg` wait loop that is still
running when the modelled iteration budget ends). -/
structure JobCmdRes where
  state : JobsState
  msgs : List String
  kills : List Int
  status : Option Nat
deriving DecidableEq, Repr

/-- `jobs_cmd_bg` (jobs.c). -/
def jobs_cmd_bg (jobnum : Int) (s : JobsState) : JobCmdRes :=
  match job_select s jobnum with
  | none => ⟨s, ["No such job"], [], some 1⟩
  | some idx =>
    let job := s.bg_jobs.getD idx default
    let any_stopped := job.stages.any (fun st => !st.finished && st.stopped)
    if !any_stopped then ⟨s, ["Job already running"], [], some 1⟩
    else
      let pgid := (job.stages.headD default).pid
      let kills := if 0 < pgid then [-pgid] else []
      let job' := { job with stages := job.stages.map (fun st => { st with stopped := false }) }
      ⟨{ s with bg_jobs := s.bg_jobs.set idx job' },
        ["[" ++ toString job.job_num ++ "] " ++ job.cmd_name ++ " &"],
        kills, some 0⟩

/-! ## The `fg` builtin -/

/-- One pass of the `for(;;)` loop of `jobs_cmd_fg`: scan the job's
stages, then (in source order) return 148 if a stop was seen, remove
the job and return the accumulated status if all stages are done, and
otherwise sleep and go around again.  The loop is driven by one wait
oracle per iteration; an exhausted oracle list models a loop that is
still spinning (status `none`). -/
def fg_loop (idx : Nat) :
    List (Int → WaitOutcome) → JobsState → Nat → JobsState × List String × Option Nat
  | [], s, _ => (s, [], none)
  | f :: rest, s, code =>
    match s.bg_jobs.get? idx with
    | none => (s, [], some code)
    | some job =>
      let r := scan_stages f job.stages.length 0 job.stages
      let job' := { job with stages := r.1 }
      let code' := (r.2.2.2).getD code
      let s' := { s with bg_jobs := s.bg_jobs.set idx job' }
      if r.2.2.1 then
        (s', ["[" ++ toString job'.job_num ++ "] Stopped " ++ job'.cmd_name],
          some 148)
      else if r.2.1 then
        ({ s with bg_jobs := s.bg_jobs.eraseIdx idx }, [], some code')
      else fg_loop idx rest s' code'

/-- `jobs_cmd_fg` (jobs.c): select the job (`jobnum ? find : most
recent`), report `No such job` on failure (also when the recorded pgid
is non-positive), print the command name, send SIGCONT if any stage is
stopped, then run the polling wait loop. -/
def jobs_cmd_fg (oracles : List (Int → WaitOutcome)) (jobnum : Int)
    (s : JobsState) : JobCmdRes :=
  match job_select s jobnum with
  | none => ⟨s, ["No such job"], [], some 1⟩
  | some idx =>
    let job := s.bg_jobs.getD idx default
    let pgid := (job.stages.headD default).pid
    if pgid ≤ 0 then ⟨s, ["No such job"], [], some 1⟩
    else
      let need_cont := job.stages.any (fun st => st.stopped)
      let kills := if need_cont then [-pgid] else []
      let r := fg_loop idx oracles s 0
      ⟨r.1, job.cmd_name :: r.2.1, kills, r.2.2⟩

/-! ## `atoi` and the `fg`/`bg` dispatch in `run_builtin` -/

/-- Whitespace recognised by C `isspace`. -/
def isSpaceC (c : Char) : Bool :=
  c = ' ' || c = '\t' || c = '\n' || c = '\r' || c = '\x0b' || c = '\x0c'

/-- Accumulate a decimal prefix, stopping at the first non-digit. -/
def digitsVal : List Char → Nat → Nat
  | [], acc => acc
  | c :: cs, acc =>
    if '0' ≤ c ∧ c ≤ '9' then digitsVal cs (acc * 10 + (c.toNat - '0'.toNat))
    else acc

/-- C `atoi`: optional whitespace, optional sign, decimal digits;
returns 0 when no digits are present. -/
def atoi (str : String) : Int :=
  let cs := str.toList.dropWhile isSpaceC
  match cs with
  | '-' :: rest => -Int.ofNat (digitsVal rest 0)
  | '+' :: rest => Int.ofNat (digitsVal rest 0)
  | _ => Int.ofNat (digitsVal cs 0)

/-- The `fg` case of `run_builtin` (executor): `jobnum = 0`, overridden
by `atoi(argv[1])` when a first argument is present. -/
def run_builtin_fg (argv : List String) (oracles : List (Int → WaitOutcome))
    (s : JobsState) : JobCmdRes :=
  let jobnum := match argv.get? 1 with
    | some a => atoi a
    | none => 0
  jobs_cmd_fg oracles jobnum s

/-- The `bg` case of `run_builtin` (executor). -/
def run_builtin_bg (argv : List String) (s : JobsState) : JobCmdRes :=
  let jobnum := match argv.get? 1 with
    | some a => atoi a
    | none => 0
  jobs_cmd_bg jobnum s

/-! ## Executor data model (SimpleCmd / Pipeline / Redir) -/

/-- `RedirType` (executor): `<`, `>`, `>>`. -/
inductive RedirType where
  | R_IN
  | R_OUT_TRUNC
  | R_OUT_APPEND
deriving DecidableEq, Repr

/-- `Redir` (executor). -/
structure Redir where
  rtype : RedirType
  path : String
deriving DecidableEq, Repr

/-- `SimpleCmd` (executor): a stage's argv and its ordered redirections. -/
structure Stage where
  argv : List String
  redirs : List Redir
deriving DecidableEq, Repr

instance : Inhabited Stage := ⟨⟨[], []⟩⟩

/-- `Pipeline` (executor). -/
structure Pipeline where
  stages : List Stage
deriving DecidableEq, Repr

/-- The command names `run_builtin` (executor) recognises. -/
def builtinNames : List String :=
  ["hop", "cd", "reveal", "ping", "log", "activities", "fg", "bg"]

/-- `run_builtin` returns a status (≠ -1) exactly for these names. -/
def isBuiltin (name : String) : Bool := builtinNames.contains name

/-- Whether `run_builtin` fires on a stage: non-null `argv[0]` naming a
builtin. -/
def builtinHit (c : Stage) : Bool :=
  match c.argv.head? with
  | some nm => isBuiltin nm
  | none => false

/-- The process in which a piece of user-visible work executes. -/
inductive Site where
  | shell
  | child
deriving DecidableEq, Repr

/-- Builtin executions performed by the forked children of
`run_pipeline` / `run_pipeline_async`: each stage whose `argv[0]` is a
builtin runs it inside that stage's child. -/
def pipelineChildRuns (pl : Pipeline) : List (String × Site) :=
  pl.stages.filterMap (fun st =>
    match st.argv.head? with
    | some nm => if isBuiltin nm then some (nm, Site.child) else none
    | none => none)

/-- The builtin executions produced by dispatching one parsed command
group in `execute_first_cmd_group` (executor).  For a single-stage
foreground group the source calls `run_builtin(sc)` in the shell
process first, and only then tests `sc->redir_count == 0` to decide
whether to also run the pipeline (forking a child that runs the builtin
again). -/
def builtinRuns (pl : Pipeline) (is_background : Bool) : List (String × Site) :=
  if pl.stages.length = 1 ∧ is_background = false then
    let sc := pl.stages.headD default
    let direct : List (String × Site) :=
      if builtinHit sc then [((sc.argv.headD ""), Site.shell)] else []
    if builtinHit sc ∧ sc.redirs.length = 0 then direct
    else direct ++ pipelineChildRuns pl
  else pipelineChildRuns pl

/-! ## The foreground wait phase of `run_pipeline` -/

/-- A `waitpid` call as issued by the executor/job code: target pid and
whether `WNOHANG` (non-blocking) and `WUNTRACED` (stop detection) were
passed. -/
structure WaitCall where
  pid : Int
  nohang : Bool
  untraced : Bool
deriving DecidableEq, Repr

/-- The wait calls issued by `run_pipeline` (executor) after launching:
one *blocking* `waitpid(pids[i], &st, WUNTRACED)` per successfully
forked stage. -/
def run_pipeline_waitCalls (pids : List Int) : List WaitCall :=
  (pids.filter (fun p => 0 < p)).map (fun p => ⟨p, false, true⟩)

/-- The wait calls issued by one iteration of the `jobs_cmd_fg` wait
loop: a non-blocking `waitpid(pid, &st, WUNTRACED | WCONTINUED | WNOHANG)`
for every not-yet-finished stage. -/
def fg_iter_waitCalls (job : BgJob) : List WaitCall :=
  (job.stages.filter (fun st => !st.finished)).map (fun st => ⟨st.pid, true, true⟩)

/-- The per-stage wait loop of `run_pipeline`: for each stage with a
positive pid, a blocking `WUNTRACED` wait; `WIFSTOPPED` sets the
`stopped` flag, any other status at the last index sets the status code
(`WIFEXITED ? WEXITSTATUS : 1`).  `acc` is `(stopped, status_code)`. -/
def fg_wait_scan (g : Int → WaitOutcome) (n : Nat) :
    Nat → List Int → Bool × Nat → Bool × Nat
  | _, [], acc => acc
  | i, p :: rest, acc =>
    let acc' :=
      if 0 < p then
        match g p with
        | .running => acc
        | .werr => acc
        | .stoppedW => (true, acc.2)
        | .continuedW => if i = n - 1 then (acc.1, 1) else acc
        | .exited c => if i = n - 1 then (acc.1, c) else acc
        | .signaled => if i = n - 1 then (acc.1, 1) else acc
      else acc
    fg_wait_scan g n (i + 1) rest acc'

/-- Terminal-ownership transfer (`tcsetpgrp`) targets. -/
inductive TermTgt where
  | group (pgid : Int)
  | shell
deriving DecidableEq, Repr

/-- Result of the synchronous wait phase of `run_pipeline`. -/
structure RunPipeRes where
  state : JobsState
  msgs : List String
  termTrace : List TermTgt
  status : Nat
deriving Repr

/-- The post-launch phase of `run_pipeline` (executor): record the
foreground job, hand the terminal to the group, wait on every stage
(blocking, stop-aware); if any stage stopped, demote the whole
foreground record to a stopped background job, print
`[n] Stopped <name>` once (only when the demotion succeeded), reclaim
the terminal and clear the foreground record, returning 148; otherwise
reclaim the terminal, clear the foreground record and return the final
stage's status.  `name` is `pl->cmds[0].argv[0]` (or `"?"`), `pids` the
forked stage pids in order, `g` the wait outcome of each pid. -/
def run_pipeline_wait (g : Int → WaitOutcome) (pids : List Int)
    (name : String) (s : JobsState) : RunPipeRes :=
  let pgid := pids.headD (-1)
  let s1 := jobs_set_foreground pgid pids name s
  let r := fg_wait_scan g pids.length 0 pids (false, 0)
  if r.1 then
    let mv := jobs_move_foreground_to_background_stopped s1
    let msgs :=
      if mv.1 ≠ -1 then
        ["[" ++ toString mv.1 ++ "] Stopped " ++ orQmark name]
      else []
    ⟨jobs_clear_foreground mv.2, msgs, [TermTgt.group pgid, TermTgt.shell], 148⟩
  else
    ⟨jobs_clear_foreground s1, [], [TermTgt.group pgid, TermTgt.shell], r.2⟩

/-! ## Child file-descriptor wiring and redirections -/

/-- What a stage's stdin is connected to after child setup. -/
inductive StdinSrc where
  | terminal
  | pipeIn (i : Nat)
  | devnull
  | file (path : String)
deriving DecidableEq, Repr

/-- What a stage's stdout is connected to after child setup. -/
inductive StdoutDst where
  | terminal
  | pipeOut (i : Nat)
  | file (path : String) (append : Bool)
deriving DecidableEq, Repr

/-- Tiny file-system model: association list from path to the list of
lines in the file.  A missing path is a file that does not exist. -/
abbrev FS := List (String × List String)

/-- Look a file up. -/
def fsLookup (fs : FS) (p : String) : Option (List String) :=
  (List.find? (fun e => e.1 = p) fs).map (fun e => e.2)

/-- Create or overwrite a file. -/
def fsSet (fs : FS) (p : String) (v : List String) : FS :=
  if (List.find? (fun e => e.1 = p) fs).isSome then
    List.map (fun e => if e.1 = p then (p, v) else e) fs
  else fs ++ [(p, v)]

/-- The redirection loop run inside each child (identical in
`run_pipeline` and `run_pipeline_async`): redirections are applied
after the pipe `dup2`s, in source order.  `<` opens the file read-only
(failing — child exits — if it does not exist); `>` opens with
`O_CREAT|O_TRUNC`, `>>` with `O_CREAT|O_APPEND`; each `dup2` replaces
the current stdin/stdout binding. -/
def apply_redirs (fs : FS) (io : StdinSrc × StdoutDst) :
    List Redir → Option (FS × StdinSrc × StdoutDst)
  | [] => some (fs, io)
  | r :: rest =>
    match r.rtype with
    | .R_IN =>
      match fsLookup fs r.path with
      | some _ => apply_redirs fs (StdinSrc.file r.path, io.2) rest
      | none => none
    | .R_OUT_TRUNC =>
      apply_redirs (fsSet fs r.path []) (io.1, StdoutDst.file r.path false) rest
    | .R_OUT_APPEND =>
      let fs' := match fsLookup fs r.path with
        | some _ => fs
        | none => fsSet fs r.path []
      apply_redirs fs' (io.1, StdoutDst.file r.path true) rest

/-- Child fd setup in `run_pipeline_async` (executor): pipe ends first,
then — because the job is launched in background — stdin is rebound to
`/dev/null` *only when the stage has no redirections at all*
(`c->redir_count == 0` in the source), then the redirections. -/
def async_child_io (prevRead pipeWrite : Option Nat) (c : Stage) (fs : FS) :
    Option (FS × StdinSrc × StdoutDst) :=
  let stdin0 : StdinSrc :=
    match prevRead with
    | some i => StdinSrc.pipeIn i
    | none => StdinSrc.terminal
  let stdout0 : StdoutDst :=
    match pipeWrite with
    | some i => StdoutDst.pipeOut i
    | none => StdoutDst.terminal
  let stdin1 := if c.redirs.length = 0 then StdinSrc.devnull else stdin0
  apply_redirs fs (stdin1, stdout0) c.redirs

/-- Child fd setup in `run_pipeline` (foreground executor): pipe ends,
then the redirections. -/
def sync_child_io (prevRead pipeWrite : Option Nat) (c : Stage) (fs : FS) :
    Option (FS × StdinSrc × StdoutDst) :=
  let stdin0 : StdinSrc :=
    match prevRead with
    | some i => StdinSrc.pipeIn i
    | none => StdinSrc.terminal
  let stdout0 : StdoutDst :=
    match pipeWrite with
    | some i => StdoutDst.pipeOut i
    | none => StdoutDst.terminal
  apply_redirs fs (stdin0, stdout0) c.redirs

/-- Append one line to a file (a write through an already-open fd). -/
def fsAppendLine (fs : FS) (p : String) (line : String) : FS :=
  fsSet fs p ((fsLookup fs p).getD [] ++ [line])

/-- Run `echo <line>` with the given redirection list in an otherwise
un-piped foreground stage: apply the redirections, then write the line
to wherever stdout ended up bound. -/
def echo_write (fs0 : FS) (rs : List Redir) (line : String) : Option FS :=
  match sync_child_io none none ⟨["echo", line], rs⟩ fs0 with
  | some (fs1, _, StdoutDst.file p _) => some (fsAppendLine fs1 p line)
  | some (fs1, _, _) => some fs1
  | none => none

/-! ## Operation sequences over the job table

Every function of `jobs.c` that can read or mutate the table or the
counter is an operation; `runOps` applies a sequence from the initial
state and collects the job numbers issued by successful registrations. -/

/-- One call into the job module. -/
inductive ShellOp where
  | setFg (pgid : Int) (pids : List Int) (name : String)
  | clearFg
  | moveStopped
  | addBg (pids : List Int) (count : Int) (names : List (Option String))
  | pollOp (f : Int → WaitOutcome)
  | fgOp (oracles : List (Int → WaitOutcome)) (jobnum : Int)
  | bgOp (jobnum : Int)

/-- Apply one operation; the second component is the job number issued
by this operation (empty when it is not a successful registration). -/
def applyOp (s : JobsState) : ShellOp → JobsState × List Nat
  | .setFg pgid pids name => (jobs_set_foreground pgid pids name s, [])
  | .clearFg => (jobs_clear_foreground s, [])
  | .moveStopped =>
    let r := jobs_move_foreground_to_background_stopped s
    (r.2, if r.1 < 0 then [] else [r.1.toNat])
  | .addBg pids count names =>
    let r := jobs_add_background pids count names s
    (r.2, if r.1 < 0 then [] else [r.1.toNat])
  | .pollOp f => ((jobs_poll f s).1, [])
  | .fgOp oracles jobnum => ((jobs_cmd_fg oracles jobnum s).state, [])
  | .bgOp jobnum => ((jobs_cmd_bg jobnum s).state, [])

/-- Run a sequence of operations, collecting issued job numbers. -/
def runOps : JobsState → List ShellOp → JobsState × List Nat
  | s, [] => (s, [])
  | s, op :: ops =>
    let r := applyOp s op
    let rr := runOps r.1 ops
    (rr.1, r.2 ++ rr.2)

/-! ## Claim C1 -/

/-- A single-stage foreground builtin with an output redirection:
`hop /tmp > f.txt`. -/
def c1_stage : Stage := ⟨["hop", "/tmp"], [⟨RedirType.R_OUT_TRUNC, "f.txt"⟩]⟩

/-- The pipeline containing only `c1_stage`. -/
def c1_pl : Pipeline := ⟨[c1_stage]⟩

/-- C1: the claim fails on the code.  For the single-stage foreground
builtin `hop /tmp > f.txt` (a builtin with a redirection),
`execute_first_cmd_group` calls `run_builtin(sc)` in the shell process
*before* testing `sc->redir_count == 0`, so the builtin executes in the
shell process itself and then again inside a forked child of
`run_pipeline` — the claim says it runs exclusively inside a forked
child. -/
theorem builtin_with_redirect_also_runs_in_shell :
    c1_pl.stages.length = 1 ∧
    builtinHit c1_stage = true ∧
    c1_stage.redirs.length ≠ 0 ∧
    builtinRuns c1_pl false = [("hop", Site.shell), ("hop", Site.child)] := by
  refine ⟨rfl, by decide, by decide, by decide⟩

/-! ## Claim C7 -/

/-- A background stage with an output redirection but no input
redirection: the last stage of `cat > out.txt &`. -/
def c7_stage : Stage := ⟨["cat"], [⟨RedirType.R_OUT_TRUNC, "out.txt"⟩]⟩

/-- C7: the claim fails on the code.  `run_pipeline_async` detaches
stdin to `/dev/null` only when `c->redir_count == 0`; a background
stage with an output redirection (and no input redirection) therefore
keeps the terminal as its stdin, while the claim — and the source's own
comment "connect stdin to /dev/null unless input redirection was
specified" — require `/dev/null`. -/
theorem background_output_redirect_keeps_terminal_stdin :
    (c7_stage.redirs.all (fun r => !(r.rtype == RedirType.R_IN))) = true ∧
    async_child_io none none c7_stage [] =
      some ([("out.txt", [])], StdinSrc.terminal, StdoutDst.file "out.txt" false) ∧
    StdinSrc.terminal ≠ StdinSrc.devnull := by
  refine ⟨by decide, by decide, by decide⟩

/-! ## Claim C3 -/

/-- C3: the claim fails on the code.  A freshly launched synchronous
pipeline (here one stage with pid 5) is waited for with a single
*blocking* `waitpid(pid, &st, WUNTRACED)` per stage — `WNOHANG` is not
passed — so the Foreground Controller's wait after a fresh launch is
not a repeated non-blocking poll. -/
theorem run_pipeline_wait_is_blocking :
    run_pipeline_waitCalls [5] = [⟨5, false, true⟩] ∧
    ((run_pipeline_waitCalls [5]).any (fun c => !c.nohang)) = true := by
  exact ⟨by decide, by decide⟩

/-- C3 (amended): only the `fg` resumption loop polls non-blocking —
every wait it issues carries `WNOHANG` (and `WUNTRACED`), repeated with
a short sleep between passes — while `run_pipeline` issues one blocking
`WUNTRACED` wait per launched stage. -/
theorem foreground_wait_call_modes (job : BgJob) (pids : List Int)
    (c c2 : WaitCall)
    (h1 : c ∈ fg_iter_waitCalls job)
    (h2 : c2 ∈ run_pipeline_waitCalls pids) :
    (c.nohang = true ∧ c.untraced = true) ∧
    (c2.nohang = false ∧ c2.untraced = true) := by
  constructor
  · unfold fg_iter_waitCalls at h1
    rcases List.mem_map.mp h1 with ⟨st, _, rfl⟩
    exact ⟨rfl, rfl⟩
  · unfold run_pipeline_waitCalls at h2
    rcases List.mem_map.mp h2 with ⟨p, _, rfl⟩
    exact ⟨rfl, rfl⟩

/-- Witness for the amended C3 at a concrete stopped job and a concrete
pipeline. -/
theorem foreground_wait_call_modes_witness :
    (⟨7, true, true⟩ : WaitCall) ∈
        fg_iter_waitCalls ⟨1, [⟨7, false, true, "cat"⟩], "cat", 0⟩ ∧
    (⟨5, false, true⟩ : WaitCall) ∈ run_pipeline_waitCalls [5] ∧
    ((true = true ∧ true = true) ∧ (false = false ∧ true = true)) :=
  ⟨by decide, by decide,
    foreground_wait_call_modes ⟨1, [⟨7, false, true, "cat"⟩], "cat", 0⟩ [5]
      ⟨7, true, true⟩ ⟨5, false, true⟩ (by decide) (by decide)⟩

/-! ## Claim C2: counterexample -/

/-- A job filling one slot of the table. -/
def dummyJob : BgJob := ⟨1000, [⟨999, false, false, "d"⟩], "d", 0⟩

/-- A job table at its `MAX_BG_JOBS = 64` capacity. -/
def fullState : JobsState :=
  { initState with bg_jobs := List.replicate 64 dummyJob, next_job_number := 1001 }

/-- C2: the claim fails on the code when the job table is full.  A
synchronous one-stage pipeline (pid 5) whose stage stops, run against a
table already holding 64 jobs, returns the sentinel 148 but the
pipeline is *not* moved into the table and no `[n] Stopped` message is
printed — the claim asserts the move and the message for every
synchronous pipeline. -/
theorem stopped_pipeline_full_table_not_registered :
    fullState.bg_jobs.length = 64 ∧
    (fun _ => WaitOutcome.stoppedW) 5 = WaitOutcome.stoppedW ∧
    (run_pipeline_wait (fun _ => WaitOutcome.stoppedW) [5] "sleep" fullState).status = 148 ∧
    (run_pipeline_wait (fun _ => WaitOutcome.stoppedW) [5] "sleep" fullState).msgs = [] ∧
    (run_pipeline_wait (fun _ => WaitOutcome.stoppedW) [5] "sleep" fullState).state.bg_jobs
      = fullState.bg_jobs := by
  refine ⟨by decide, rfl, by decide, by decide, by decide⟩

/-! ## Claim C2: the amended statement -/

/-- The status `run_pipeline` derives from the final stage's wait
status: `WIFEXITED ? WEXITSTATUS : 1`. -/
def exitStatus : WaitOutcome → Nat
  | .exited c => c
  | _ => 1

/-- Wait outcomes that mean the child terminated. -/
def isTermination : WaitOutcome → Bool
  | .exited _ => true
  | .signaled => true
  | _ => false

/-- Status update performed by the wait scan at the last stage index. -/
def lastUpd : WaitOutcome → Nat → Nat
  | .exited c, _ => c
  | .signaled, _ => 1
  | .continuedW, _ => 1
  | _, d => d

/-- The `stopped` flag computed by `run_pipeline`'s wait loop is set iff
some positive pid reported `WIFSTOPPED`. -/
lemma fg_wait_scan_stopped (g : Int → WaitOutcome) (n : Nat) :
    ∀ (pids : List Int) (i : Nat) (acc : Bool × Nat),
      (fg_wait_scan g n i pids acc).1 =
        (acc.1 ||
          pids.any (fun p => decide (0 < p) && decide (g p = WaitOutcome.stoppedW))) := by
  intro pids
  induction pids with
  | nil => intro i acc; simp [fg_wait_scan]
  | cons p rest ih =>
    intro i acc
    simp only [fg_wait_scan]
    rw [ih]
    by_cases hp : 0 < p <;> cases hgp : g p <;>
      by_cases hi : i = n - 1 <;>
      simp [hp, hgp, hi, Bool.or_assoc]

/-- The status component of the wait scan does not depend on the
`stopped` flag carried in the accumulator. -/
lemma fg_wait_scan_snd_congr (g : Int → WaitOutcome) (n : Nat) :
    ∀ (pids : List Int) (i : Nat) (a b : Bool) (c : Nat),
      (fg_wait_scan g n i pids (a, c)).2 = (fg_wait_scan g n i pids (b, c)).2 := by
  intro pids
  induction pids with
  | nil => intro i a b c; simp [fg_wait_scan]
  | cons p rest ih =>
    intro i a b c
    simp only [fg_wait_scan]
    by_cases hp : 0 < p <;> cases hgp : g p <;> by_cases hi : i = n - 1 <;>
      simp only [hp, hgp, hi, if_true, if_false, reduceIte] <;>
      apply ih

/-- The status code computed by `run_pipeline`'s wait loop is determined
by the final stage's outcome alone (earlier stages never set it), when
all pids are positive. -/
lemma fg_wait_scan_status (g : Int → WaitOutcome) (n : Nat) :
    ∀ (pids : List Int) (i : Nat) (acc : Bool × Nat),
      n = i + pids.length → pids ≠ [] → (∀ p ∈ pids, 0 < p) →
      (fg_wait_scan g n i pids acc).2 = lastUpd (g (pids.getLastD 0)) acc.2 := by
  intro pids
  induction pids with
  | nil => intro i acc _ hne; exact absurd rfl hne
  | cons p rest ih =>
    intro i acc hn _ hpos
    have hp : 0 < p := hpos p (List.mem_cons_self p rest)
    cases rest with
    | nil =>
      have hi : i = n - 1 := by simp at hn; omega
      simp only [fg_wait_scan, List.getLastD]
      cases hgp : g p <;> simp [hp, hgp, hi, fg_wait_scan, lastUpd, List.getLastD]
    | cons q rest' =>
      have hi : ¬ (i = n - 1) := by
        simp only [List.length_cons] at hn; omega
      have hstep :
          (fg_wait_scan g n i (p :: q :: rest') acc).2 =
            (fg_wait_scan g n (i + 1) (q :: rest') acc).2 := by
        simp only [fg_wait_scan]
        cases hgp : g p <;>
          simp only [hp, hgp, hi, if_true, if_false, reduceIte] <;>
          first
          | rfl
          | exact fg_wait_scan_snd_congr g n (q :: rest') (i + 1) true acc.1 acc.2
      rw [hstep, ih (i + 1) acc (by simp only [List.length_cons] at hn ⊢; omega)
        (by simp) (fun x hx => hpos x (List.mem_cons_of_mem _ hx))]
      simp [List.getLastD]

/-- The default-carrying last element of a nonempty list is a member. -/
lemma getLastD_mem_of_ne_nil {α : Type} [Inhabited α] (l : List α) (d : α)
    (h : l ≠ []) : l.getLastD d ∈ l := by
  rw [List.getLastD_eq_getLast?]
  cases hq : l.getLast? with
  | none => exact absurd (List.getLast?_eq_none_iff.mp hq) h
  | some a =>
    have ha : a ∈ l.getLast? := by rw [hq]; rfl
    obtain ⟨hh, rfl⟩ := List.mem_getLast?_eq_getLast ha
    simpa using List.getLast_mem hh

/-- The job `run_pipeline`'s stopped path registers: every launched pid
becomes one stage, all marked stopped and unfinished. -/
def mkStoppedJob (num : Nat) (pids : List Int) (name : String) : BgJob :=
  { job_num := num
    stages := pids.map (fun p => ⟨p, false, true, orQmark name⟩)
    cmd_name := orQmark name
    last_status := 0 }

/-- C2 (amended): for a synchronous pipeline whose stages all hold
positive pids (at most `MAX_CMDS` of them, as the parser guarantees):
if every stage terminates, `run_pipeline` returns the final stage's own
exit status — no earlier stage's status masks it — prints nothing, adds
nothing to the job table, clears the foreground record and reclaims the
terminal; if any stage stops *and the job table is below its 64-job
capacity*, the entire pipeline is registered as one stopped job, the
`[n] Stopped <name>` line is printed exactly once, the terminal is
reclaimed, the foreground record cleared, and the sentinel 148
returned. -/
theorem run_pipeline_foreground_outcomes
    (g : Int → WaitOutcome) (pids : List Int) (name : String) (s : JobsState)
    (hne : pids ≠ []) (hpos : ∀ p ∈ pids, 0 < p)
    (hlen : pids.length ≤ MAX_CMDS) :
    ((∀ p ∈ pids, isTermination (g p) = true) →
      run_pipeline_wait g pids name s =
        ⟨jobs_clear_foreground s, [],
          [TermTgt.group (pids.headD (-1)), TermTgt.shell],
          exitStatus (g (pids.getLastD 0))⟩) ∧
    ((∃ p ∈ pids, g p = WaitOutcome.stoppedW) →
      s.bg_jobs.length < MAX_BG_JOBS →
      run_pipeline_wait g pids name s =
        ⟨{ jobs_clear_foreground s with
             bg_jobs := s.bg_jobs ++ [mkStoppedJob s.next_job_number pids name],
             next_job_number := s.next_job_number + 1 },
          ["[" ++ toString (Int.ofNat s.next_job_number) ++ "] Stopped " ++ orQmark name],
          [TermTgt.group (pids.headD (-1)), TermTgt.shell], 148⟩) := by
  constructor
  · intro hterm
    have hstop : (fg_wait_scan g pids.length 0 pids (false, 0)).1 = false := by
      rw [fg_wait_scan_stopped]
      simp only [Bool.false_or]
      rw [List.any_eq_false]
      intro p hp
      have := hterm p hp
      cases hgp : g p <;> simp_all [isTermination]
    have hstat : (fg_wait_scan g pids.length 0 pids (false, 0)).2 =
        exitStatus (g (pids.getLastD 0)) := by
      rw [fg_wait_scan_status g pids.length pids 0 (false, 0) (by simp) hne hpos]
      have := hterm _ (getLastD_mem_of_ne_nil pids 0 hne)
      cases hg : g (pids.getLastD 0) <;> simp_all [lastUpd, exitStatus, isTermination]
    simp only [run_pipeline_wait, hstop, Bool.false_eq_true, if_false, hstat]
    simp [jobs_clear_foreground, jobs_set_foreground]
  · intro hstopped hcap
    have hstop : (fg_wait_scan g pids.length 0 pids (false, 0)).1 = true := by
      rw [fg_wait_scan_stopped]
      obtain ⟨p, hp, hgp⟩ := hstopped
      simp only [Bool.false_or]
      rw [List.any_eq_true]
      exact ⟨p, hp, by simp [hpos p hp, hgp]⟩
    have hhead : 0 < pids.headD (-1) := by
      obtain ⟨a, l, rfl⟩ := List.exists_cons_of_ne_nil hne
      exact hpos a (List.mem_cons_self a l)
    have htake : pids.take MAX_CMDS = pids := List.take_of_length_le hlen
    have hguard : ¬ ((jobs_set_foreground (pids.headD (-1)) pids name s).fg_pgid = -1 ∨
        (jobs_set_foreground (pids.headD (-1)) pids name s).fg_pids.length = 0) := by
      simp only [jobs_set_foreground, htake]
      push_neg
      refine ⟨by omega, ?_⟩
      simpa using hne
    simp only [run_pipeline_wait, hstop, if_true]
    rw [jobs_move_foreground_to_background_stopped, if_neg hguard]
    rw [if_neg (by simpa [jobs_set_foreground] using Nat.not_le.mpr hcap)]
    simp only [jobs_set_foreground, jobs_clear_foreground, htake]
    rw [if_pos (show Int.ofNat s.next_job_number ≠ -1 by
      have h0 : (0 : Int) ≤ Int.ofNat s.next_job_number := Int.ofNat_nonneg _
      omega)]
    simp [mkStoppedJob]

/-- Witness for the amended C2: a two-stage pipeline (pids 5 and 7)
whose final stage exits with status 3 returns 3, prints nothing and
leaves the table untouched. -/
theorem run_pipeline_foreground_outcomes_witness :
    (([5, 7] : List Int) ≠ []) ∧ (∀ p ∈ ([5, 7] : List Int), 0 < p) ∧
    (([5, 7] : List Int).length ≤ MAX_CMDS) ∧
    (∀ p ∈ ([5, 7] : List Int),
      isTermination
        ((fun q => if q = 7 then WaitOutcome.exited 3 else WaitOutcome.exited 0) p)
        = true) ∧
    run_pipeline_wait
        (fun q => if q = 7 then WaitOutcome.exited 3 else WaitOutcome.exited 0)
        [5, 7] "false" initState =
      ⟨jobs_clear_foreground initState, [],
        [TermTgt.group (([5, 7] : List Int).headD (-1)), TermTgt.shell],
        exitStatus
          ((fun q => if q = 7 then WaitOutcome.exited 3 else WaitOutcome.exited 0)
            (([5, 7] : List Int).getLastD 0))⟩ :=
  ⟨by decide, by decide, by decide, by decide,
    (run_pipeline_foreground_outcomes
      (fun q => if q = 7 then WaitOutcome.exited 3 else WaitOutcome.exited 0)
      [5, 7] "false" initState (by decide) (by decide) (by decide)).1 (by decide)⟩

/-! ## Claim C4 -/

/-- The `fg` wait loop never touches the job-number counter. -/
lemma fg_loop_next_job_number (idx : Nat) :
    ∀ (oracles : List (Int → WaitOutcome)) (s : JobsState) (code : Nat),
      (fg_loop idx oracles s code).1.next_job_number = s.next_job_number := by
  intro oracles
  induction oracles with
  | nil => intro s code; rfl
  | cons f rest ih =>
    intro s code
    simp only [fg_loop]
    cases hj : s.bg_jobs.get? idx with
    | none => rfl
    | some job =>
      by_cases h1 : (scan_stages f job.stages.length 0 job.stages).2.2.1 <;>
        by_cases h2 : (scan_stages f job.stages.length 0 job.stages).2.1 <;>
        simp [h1, h2, ih]

/-- Effect of one operation on the issued numbers and the counter:
either nothing is issued and the counter is unchanged, or exactly the
current counter value is issued and the counter is incremented. -/
lemma applyOp_issued (s : JobsState) (op : ShellOp) :
    ((applyOp s op).2 = [] ∧
      (applyOp s op).1.next_job_number = s.next_job_number) ∨
    ((applyOp s op).2 = [s.next_job_number] ∧
      (applyOp s op).1.next_job_number = s.next_job_number + 1) := by
  have hofnat : (0 : Int) ≤ Int.ofNat s.next_job_number := Int.ofNat_nonneg _
  cases op with
  | setFg pgid pids name => exact Or.inl ⟨rfl, rfl⟩
  | clearFg => exact Or.inl ⟨rfl, rfl⟩
  | moveStopped =>
    simp only [applyOp, jobs_move_foreground_to_background_stopped]
    by_cases h1 : s.fg_pgid = -1 ∨ s.fg_pids.length = 0
    · rw [if_pos h1]; exact Or.inl ⟨by norm_num, rfl⟩
    · rw [if_neg h1]
      by_cases h2 : MAX_BG_JOBS ≤ s.bg_jobs.length
      · rw [if_pos h2]; exact Or.inl ⟨by norm_num, rfl⟩
      · rw [if_neg h2]
        refine Or.inr ⟨?_, rfl⟩
        rw [if_neg (by omega)]
        simp
  | addBg pids count names =>
    simp only [applyOp, jobs_add_background]
    by_cases h1 : count ≤ 0
    · rw [if_pos h1]; exact Or.inl ⟨by norm_num, rfl⟩
    · rw [if_neg h1]
      by_cases h2 : MAX_BG_JOBS ≤ s.bg_jobs.length
      · rw [if_pos h2]; exact Or.inl ⟨by norm_num, rfl⟩
      · rw [if_neg h2]
        refine Or.inr ⟨?_, rfl⟩
        rw [if_neg (by omega)]
        simp
  | pollOp f => exact Or.inl ⟨rfl, rfl⟩
  | fgOp oracles jobnum =>
    refine Or.inl ⟨rfl, ?_⟩
    simp only [applyOp, jobs_cmd_fg]
    split
    · rfl
    · split
      · rfl
      · simp [fg_loop_next_job_number]
  | bgOp jobnum =>
    refine Or.inl ⟨rfl, ?_⟩
    simp only [applyOp, jobs_cmd_bg]
    split
    · rfl
    · split
      · rfl
      · rfl

/-- Over any operation sequence the issued job numbers are strictly
increasing, bounded below by the starting counter and above by the
final counter, which never decreases. -/
lemma runOps_issued : ∀ (ops : List ShellOp) (s : JobsState),
    List.Chain' (· < ·) (runOps s ops).2 ∧
    (∀ m ∈ (runOps s ops).2,
      s.next_job_number ≤ m ∧ m < (runOps s ops).1.next_job_number) ∧
    s.next_job_number ≤ (runOps s ops).1.next_job_number := by
  intro ops
  induction ops with
  | nil => intro s; simp [runOps]
  | cons op rest ih =>
    intro s
    simp only [runOps]
    obtain ⟨hc, hb, hm⟩ := ih (applyOp s op).1
    rcases applyOp_issued s op with ⟨h0, hnext⟩ | ⟨h0, hnext⟩ <;> rw [h0]
    · simp only [List.nil_append]
      refine ⟨hc, fun m hm2 => ?_, by omega⟩
      have hbm := hb m hm2
      exact ⟨by omega, hbm.2⟩
    · simp only [List.cons_append, List.nil_append]
      refine ⟨?_, ?_, by omega⟩
      · rw [List.chain'_cons']
        refine ⟨fun y hy => ?_, hc⟩
        have hy2 := hb y (List.mem_of_mem_head? hy)
        omega
      · intro m hm2
        rcases List.mem_cons.mp hm2 with rfl | hm3
        · exact ⟨le_refl _, by omega⟩
        · have hbm := hb m hm3
          exact ⟨by omega, hbm.2⟩

/-- The C4 scenario: register three jobs, let a poll remove the middle
one (its only stage exits), then register a fourth. -/
def c4ops : List ShellOp :=
  [ShellOp.addBg [10] 1 [some "a"], ShellOp.addBg [20] 1 [some "b"],
   ShellOp.addBg [30] 1 [some "c"],
   ShellOp.pollOp (fun p => if p = 20 then WaitOutcome.exited 0 else WaitOutcome.running),
   ShellOp.addBg [40] 1 [some "d"]]

/-- C4: for every sequence of job-table operations started from the
initial state, the job numbers issued by successful registrations are
strictly increasing (hence never reused after removal) and start at no
lower than 1; in the concrete scenario — register three jobs, remove
the middle one via a poll, register a fourth — the registrations are
numbered 1, 2, 3, 4 and the surviving table holds numbers 1, 3, 4, so
the fourth job receives the next unused number, not the freed 2. -/
theorem job_numbers_strictly_increasing (ops : List ShellOp) :
    List.Chain' (· < ·) (runOps initState ops).2 ∧
    (∀ m ∈ (runOps initState ops).2, 1 ≤ m) ∧
    (runOps initState c4ops).2 = [1, 2, 3, 4] ∧
    ((runOps initState c4ops).1.bg_jobs.map (fun j => j.job_num)) = [1, 3, 4] := by
  obtain ⟨hc, hb, _⟩ := runOps_issued ops initState
  exact ⟨hc, fun m hm => (hb m hm).1, by decide, by decide⟩

/-- Witness for C4 at the concrete scenario: job number 1 is among the
issued numbers and the issued list of the scenario is strictly
increasing. -/
theorem job_numbers_strictly_increasing_witness :
    (1 ∈ (runOps initState c4ops).2) ∧ 1 ≤ 1 ∧
    List.Chain' (· < ·) (runOps initState c4ops).2 :=
  ⟨by decide, (job_numbers_strictly_increasing c4ops).2.1 1 (by decide),
    (job_numbers_strictly_increasing c4ops).1⟩

/-! ## Claim C5 -/

/-- The status recorded when a stage's wait reports termination. -/
def doneStatus : WaitOutcome → Option Nat
  | .exited c => some (if c = 0 then 0 else 1)
  | .signaled => some 1
  | _ => none

/-- A stage step never changes the stage's pid. -/
lemma scan_stage_pid (f : Int → WaitOutcome) (n i : Nat) (st : StageRec) :
    (scan_stage f n i st).1.pid = st.pid := by
  unfold scan_stage
  split
  · rfl
  · cases f st.pid <;> rfl

/-- With no erroring waits, a stage blocks "all done" exactly when it is
still unfinished after the step. -/
lemma scan_stage_blocks (f : Int → WaitOutcome) (n i : Nat) (st : StageRec)
    (hnr : st.finished = false → f st.pid ≠ WaitOutcome.werr) :
    (scan_stage f n i st).2.1 = !((scan_stage f n i st).1.finished) := by
  unfold scan_stage
  by_cases hf : st.finished
  · simp [hf]
  · have hw := hnr (by simpa using hf)
    cases hg : f st.pid <;>
      simp only [hf, if_false, reduceIte] <;>
      first
      | (exact absurd hg hw)
      | simp [hf]

/-- With no erroring waits, the scan reports "all done" exactly when
every stage is finished afterwards. -/
lemma scan_stages_allDone (f : Int → WaitOutcome) (n : Nat) :
    ∀ (sts : List StageRec) (i : Nat),
      (∀ st ∈ sts, st.finished = false → f st.pid ≠ WaitOutcome.werr) →
      (scan_stages f n i sts).2.1 =
        (scan_stages f n i sts).1.all (fun st => st.finished) := by
  intro sts
  induction sts with
  | nil => intro i _; rfl
  | cons st rest ih =>
    intro i hnr
    simp only [scan_stages, List.all_cons]
    rw [scan_stage_blocks f n i st (hnr st (List.mem_cons_self _ _)),
        ih (i + 1) (fun x hx => hnr x (List.mem_cons_of_mem _ hx))]
    cases h : (scan_stage f n i st).1.finished <;> simp [h]

/-- Dropping the head of a list with a nonempty tail does not change its
defaulted last element. -/
lemma getLastD_cons_of_ne_nil {α : Type} [Inhabited α] (a : α) (l : List α)
    (h : l ≠ []) (d : α) : (a :: l).getLastD d = l.getLastD d := by
  cases l with
  | nil => exact absurd rfl h
  | cons b t => simp [List.getLastD]

/-- The scan preserves the pid of the last stage. -/
lemma scan_stages_last_pid (f : Int → WaitOutcome) (n : Nat) :
    ∀ (sts : List StageRec) (i : Nat),
      ((scan_stages f n i sts).1.getLastD default).pid =
        (sts.getLastD default).pid := by
  intro sts
  induction sts with
  | nil => intro i; rfl
  | cons st rest ih =>
    intro i
    cases rest with
    | nil =>
      simp only [scan_stages, List.getLastD]
      exact scan_stage_pid f n i st
    | cons st2 rest2 =>
      have h1 : (scan_stages f n i (st :: st2 :: rest2)).1 =
          (scan_stage f n i st).1 ::
            (scan_stages f n (i + 1) (st2 :: rest2)).1 := rfl
      have h2 : (scan_stages f n (i + 1) (st2 :: rest2)).1 =
          (scan_stage f n (i + 1) st2).1 ::
            (scan_stages f n (i + 1 + 1) rest2).1 := rfl
      rw [h1, getLastD_cons_of_ne_nil _ _
            (by rw [h2]; exact List.cons_ne_nil _ _) _,
          getLastD_cons_of_ne_nil st _ (List.cons_ne_nil _ _) _]
      exact ih (i + 1)

/-- When the scan finishes a job whose last stage was still unfinished,
the status update is exactly the classification of the last stage's own
terminating outcome. -/
lemma scan_stages_upd (f : Int → WaitOutcome) (n : Nat) :
    ∀ (sts : List StageRec) (i : Nat),
      n = i + sts.length → sts ≠ [] →
      (∀ st ∈ sts, st.finished = false → f st.pid ≠ WaitOutcome.werr) →
      (sts.getLastD default).finished = false →
      (scan_stages f n i sts).2.1 = true →
      (scan_stages f n i sts).2.2.2 = doneStatus (f (sts.getLastD default).pid) ∧
        (doneStatus (f (sts.getLastD default).pid)).isSome = true := by
  intro sts
  induction sts with
  | nil => intro i _ hne; exact absurd rfl hne
  | cons st rest ih =>
    intro i hn _ hnr hlast hdone
    cases rest with
    | nil =>
      have hi : i = n - 1 := by simp only [List.length_cons, List.length_nil] at hn; omega
      have hlast2 : st.finished = false := hlast
      have hw := hnr st (List.mem_cons_self _ _) hlast2
      have hlastD : ([st].getLastD default) = st := rfl
      rw [hlastD]
      cases hg : f st.pid with
      | werr => exact absurd hg hw
      | exited c =>
        refine ⟨?_, by simp [doneStatus]⟩
        show (scan_stages f n i [st]).2.2.2 = _
        simp [scan_stages, scan_stage, hlast2, hg, hi, doneStatus]
      | signaled =>
        refine ⟨?_, by simp [doneStatus]⟩
        show (scan_stages f n i [st]).2.2.2 = _
        simp [scan_stages, scan_stage, hlast2, hg, hi, doneStatus]
      | running =>
        exfalso
        have hx : (scan_stages f n i [st]).2.1 = false := by
          simp [scan_stages, scan_stage, hlast2, hg]
        rw [hx] at hdone; cases hdone
      | stoppedW =>
        exfalso
        have hx : (scan_stages f n i [st]).2.1 = false := by
          simp [scan_stages, scan_stage, hlast2, hg]
        rw [hx] at hdone; cases hdone
      | continuedW =>
        exfalso
        have hx : (scan_stages f n i [st]).2.1 = false := by
          simp [scan_stages, scan_stage, hlast2, hg]
        rw [hx] at hdone; cases hdone
    | cons st2 rest2 =>
      have htail : (st2 :: rest2) ≠ [] := List.cons_ne_nil _ _
      have hlast3 : ((st2 :: rest2).getLastD default).finished = false := by
        rw [getLastD_cons_of_ne_nil st _ htail] at hlast
        exact hlast
      have hdoneexp : (scan_stages f n i (st :: st2 :: rest2)).2.1 =
          (!(scan_stage f n i st).2.1 &&
            (scan_stages f n (i + 1) (st2 :: rest2)).2.1) := rfl
      rw [hdoneexp] at hdone
      have hdone2 : (scan_stages f n (i + 1) (st2 :: rest2)).2.1 = true :=
        (Bool.and_eq_true_iff.mp hdone).2
      obtain ⟨hupd, hsome⟩ := ih (i + 1)
        (by simp only [List.length_cons] at hn ⊢; omega) htail
        (fun x hx => hnr x (List.mem_cons_of_mem _ hx)) hlast3 hdone2
      rw [getLastD_cons_of_ne_nil st _ htail]
      refine ⟨?_, hsome⟩
      have hexp : (scan_stages f n i (st :: st2 :: rest2)).2.2.2 =
          (match (scan_stages f n (i + 1) (st2 :: rest2)).2.2.2 with
           | some v => some v
           | none => (scan_stage f n i st).2.2.2) := rfl
      rw [hexp, hupd]
      cases hds : doneStatus (f ((st2 :: rest2).getLastD default).pid) with
      | none => rw [hds] at hsome; cases hsome
      | some v => rfl

/-- Per-job membership facts for one `jobs_poll` pass: a job polled to
completion contributes its message to the output, a job not yet
complete stays in the table (updated in place). -/
lemma jobs_poll_list_mem (f : Int → WaitOutcome) (job : BgJob) :
    ∀ (l : List BgJob), job ∈ l →
      ((poll_job f job).2 = true →
        doneMsg (poll_job f job).1 ∈ (jobs_poll_list f l).2) ∧
      ((poll_job f job).2 = false →
        (poll_job f job).1 ∈ (jobs_poll_list f l).1) := by
  intro l
  induction l with
  | nil => intro h; cases h
  | cons j rest ih =>
    intro hmem
    rcases List.mem_cons.mp hmem with rfl | hmem2
    · constructor
      · intro hd
        simp only [jobs_poll_list, hd, if_true]
        exact List.mem_cons_self _ _
      · intro hd
        simp only [jobs_poll_list, hd]
        simp
    · obtain ⟨ha, hb⟩ := ih hmem2
      constructor
      · intro hd
        simp only [jobs_poll_list]
        by_cases hj : (poll_job f j).2 <;> simp [hj, ha hd]
      · intro hd
        simp only [jobs_poll_list]
        by_cases hj : (poll_job f j).2 <;> simp [hj, hb hd]

/-- C5: in a `jobs_poll` pass — given that no tracked unfinished stage's
wait errors out (the OS guarantee for un-reaped children) and that the
job's last stage has not yet finished (true of every job as registered)
— the job is removed exactly when every one of its stages is finished
after the pass; at that moment its message is among those printed, the
recorded classification is "normal" precisely when the last stage's own
wait reported exit status 0 (independent of earlier stages), and the
message is `<display_name> with pid <pid of last stage> exited
normally`/`... exited abnormally` accordingly.  A job not yet complete
stays in the table. -/
theorem jobs_poll_removal_and_classification
    (f : Int → WaitOutcome) (job : BgJob) (s : JobsState)
    (hmem : job ∈ s.bg_jobs)
    (hnoerr : ∀ st ∈ job.stages, st.finished = false →
      f st.pid ≠ WaitOutcome.werr)
    (hne : job.stages ≠ [])
    (hlast : (job.stages.getLastD default).finished = false) :
    ((poll_job f job).2 = true ↔
      (poll_job f job).1.stages.all (fun st => st.finished) = true) ∧
    ((poll_job f job).2 = true →
      ((poll_job f job).1.last_status = 0 ↔
        f (lastPid job) = WaitOutcome.exited 0)) ∧
    ((poll_job f job).2 = true →
      doneMsg (poll_job f job).1 ∈ (jobs_poll f s).2) ∧
    ((poll_job f job).2 = false →
      (poll_job f job).1 ∈ (jobs_poll f s).1.bg_jobs) ∧
    (doneMsg (poll_job f job).1 =
      job.cmd_name ++ " with pid " ++ toString (lastPid job) ++
        (if (poll_job f job).1.last_status = 0 then " exited normally"
         else " exited abnormally")) := by
  obtain ⟨hmsg_mem, hkeep⟩ := jobs_poll_list_mem f job s.bg_jobs hmem
  refine ⟨?_, ?_, hmsg_mem, hkeep, ?_⟩
  · show (scan_stages f job.stages.length 0 job.stages).2.1 = true ↔ _
    rw [scan_stages_allDone f job.stages.length job.stages 0 hnoerr]
    exact Iff.rfl
  · intro hdone
    have hdone2 : (scan_stages f job.stages.length 0 job.stages).2.1 = true := hdone
    obtain ⟨hupd, hsome⟩ := scan_stages_upd f job.stages.length job.stages 0
      (by omega) hne hnoerr hlast hdone2
    show ((scan_stages f job.stages.length 0 job.stages).2.2.2).getD
        job.last_status = 0 ↔ _
    rw [hupd]
    unfold lastPid
    cases hg : f (job.stages.getLastD default).pid with
    | exited c =>
      simp only [doneStatus, Option.getD_some]
      constructor
      · intro h0
        by_cases hc : c = 0
        · rw [hc]
        · rw [if_neg hc] at h0; cases h0
      · intro hx
        cases hx
        simp
    | signaled => simp [doneStatus]
    | running => rw [hg] at hsome; cases hsome
    | werr => rw [hg] at hsome; cases hsome
    | stoppedW => rw [hg] at hsome; cases hsome
    | continuedW => rw [hg] at hsome; cases hsome
  · unfold doneMsg poll_job lastPid
    simp only []
    rw [scan_stages_last_pid f job.stages.length job.stages 0]

/-- A two-stage job (pids 5 and 7), pid 5 currently stopped. -/
def c5job : BgJob := ⟨1, [⟨5, false, true, "x"⟩, ⟨7, false, false, "x"⟩], "x", 0⟩

/-- Table holding only `c5job`. -/
def c5state : JobsState := { initState with bg_jobs := [c5job], next_job_number := 2 }

/-- Wait outcomes while `fg` resumes the job: pid 5 stops again, pid 7
(the last stage) exits with nonzero status 3. -/
def c5f1 : Int → WaitOutcome :=
  fun p => if p = 5 then WaitOutcome.stoppedW else WaitOutcome.exited 3

/-- Wait outcomes for the later poll pass: pid 5 exits normally. -/
def c5f2 : Int → WaitOutcome :=
  fun p => if p = 5 then WaitOutcome.exited 0 else WaitOutcome.running

/-- C5: the claim fails on the code across an `fg` interleaving.
Resuming the job with `fg` reaps the last stage (pid 7, exit status 3)
inside the `fg` wait loop — which marks it finished but never writes
`job->last_status` — and the pipeline then stops again, so `fg` returns
148 with the job back in the table.  The later `jobs_poll` pass that
finishes the remaining stage removes the job and prints
`x with pid 7 exited normally`, although the last stage's own exit
status was the nonzero 3: the printed classification is the stale
registered status, not the last stage's own exit status. -/
theorem poll_classification_stale_after_fg :
    (jobs_cmd_fg [c5f1] 1 c5state).status = some 148 ∧
    c5f1 7 = WaitOutcome.exited 3 ∧
    (jobs_poll c5f2 (jobs_cmd_fg [c5f1] 1 c5state).state).2 =
      ["x with pid 7 exited normally"] := by
  refine ⟨by decide, by decide, by decide⟩

/-- Witness for C5: a two-stage job whose first stage already finished
and whose second (last) stage exits with status 2 in this pass is
removed with the "exited abnormally" message. -/
theorem jobs_poll_removal_witness :
    (⟨3, [⟨8, true, false, "a"⟩, ⟨9, false, false, "a"⟩], "a", 0⟩ : BgJob) ∈
      ({ initState with
          bg_jobs := [⟨3, [⟨8, true, false, "a"⟩, ⟨9, false, false, "a"⟩], "a", 0⟩] }
        : JobsState).bg_jobs ∧
    ((poll_job (fun p => if p = 9 then WaitOutcome.exited 2 else WaitOutcome.running)
        ⟨3, [⟨8, true, false, "a"⟩, ⟨9, false, false, "a"⟩], "a", 0⟩).2 = true ↔
      (poll_job (fun p => if p = 9 then WaitOutcome.exited 2 else WaitOutcome.running)
        ⟨3, [⟨8, true, false, "a"⟩, ⟨9, false, false, "a"⟩], "a", 0⟩).1.stages.all
          (fun st => st.finished) = true) :=
  ⟨by decide,
    (jobs_poll_removal_and_classification
      (fun p => if p = 9 then WaitOutcome.exited 2 else WaitOutcome.running)
      ⟨3, [⟨8, true, false, "a"⟩, ⟨9, false, false, "a"⟩], "a", 0⟩
      { initState with
          bg_jobs := [⟨3, [⟨8, true, false, "a"⟩, ⟨9, false, false, "a"⟩], "a", 0⟩] }
      (by decide) (by decide) (by decide) (by decide)).1⟩

/-! ## Claim C8 -/

/-- Job selection fails when an explicit job number matches no job. -/
lemma job_select_eq_none (s : JobsState) (jobnum : Int)
    (h0 : jobnum ≠ 0) (h : ∀ j ∈ s.bg_jobs, Int.ofNat j.job_num ≠ jobnum) :
    job_select s jobnum = none := by
  unfold job_select find_job_index
  rw [if_neg h0, List.findIdx?_eq_none_iff]
  intro j hj
  exact decide_eq_false (h j hj)

/-- C8: `fg`/`bg` lookup failures are reported as builtin statuses and
mutate nothing.  `fg`/`bg` with an explicit job number matching no
table entry print `No such job`, return 1, send no signal and leave the
whole state (job table included) unchanged; `bg` on a job that exists
but has no stopped unfinished stage prints `Job already running`,
returns 1, sends no signal and leaves the state unchanged. -/
theorem fg_bg_lookup_failures (s : JobsState) (jobnum : Int)
    (oracles : List (Int → WaitOutcome)) :
    ((jobnum ≠ 0 ∧ ∀ j ∈ s.bg_jobs, Int.ofNat j.job_num ≠ jobnum) →
      jobs_cmd_fg oracles jobnum s = ⟨s, ["No such job"], [], some 1⟩ ∧
      jobs_cmd_bg jobnum s = ⟨s, ["No such job"], [], some 1⟩) ∧
    (∀ idx, job_select s jobnum = some idx →
      (∀ st ∈ (s.bg_jobs.getD idx default).stages,
        st.finished = true ∨ st.stopped = false) →
      jobs_cmd_bg jobnum s = ⟨s, ["Job already running"], [], some 1⟩) := by
  constructor
  · rintro ⟨h0, h⟩
    have hsel := job_select_eq_none s jobnum h0 h
    constructor
    · unfold jobs_cmd_fg
      rw [hsel]
    · unfold jobs_cmd_bg
      rw [hsel]
  · intro idx hidx hstages
    have hany : ((s.bg_jobs.getD idx default).stages.any
        (fun st => !st.finished && st.stopped)) = false := by
      rw [List.any_eq_false]
      intro st hst
      rcases hstages st hst with h1 | h1 <;> simp [h1]
    unfold jobs_cmd_bg
    rw [hidx]
    show (if (!(s.bg_jobs.getD idx default).stages.any
        (fun st => !st.finished && st.stopped)) = true then _ else _) = _
    rw [hany]
    rfl

/-- Witness for C8: a table holding only job 1; `fg 7`/`bg 7` report
`No such job` without touching it. -/
theorem fg_bg_lookup_failures_witness :
    ((7 : Int) ≠ 0 ∧
      ∀ j ∈ ({ initState with
          bg_jobs := [⟨1, [⟨5, false, false, "x"⟩], "x", 0⟩] } : JobsState).bg_jobs,
        Int.ofNat j.job_num ≠ 7) ∧
    jobs_cmd_fg [] 7
        { initState with bg_jobs := [⟨1, [⟨5, false, false, "x"⟩], "x", 0⟩] } =
      ⟨{ initState with bg_jobs := [⟨1, [⟨5, false, false, "x"⟩], "x", 0⟩] },
        ["No such job"], [], some 1⟩ ∧
    jobs_cmd_bg 7
        { initState with bg_jobs := [⟨1, [⟨5, false, false, "x"⟩], "x", 0⟩] } =
      ⟨{ initState with bg_jobs := [⟨1, [⟨5, false, false, "x"⟩], "x", 0⟩] },
        ["No such job"], [], some 1⟩ :=
  ⟨⟨by decide, by decide⟩,
    (fg_bg_lookup_failures
      { initState with bg_jobs := [⟨1, [⟨5, false, false, "x"⟩], "x", 0⟩] } 7 []).1
      ⟨by decide, by decide⟩⟩

/-! ## Claim C10 -/

/-- C10: an `fg`/`bg` argument that `atoi` converts to 0 (such as `abc`
or `0`) makes the builtin behave exactly as if no argument had been
given: the most recently registered job is selected (rather than `No
such job` being reported) whenever the table is nonempty. -/
theorem fg_bg_atoi_zero_like_no_argument
    (s : JobsState) (oracles : List (Int → WaitOutcome)) (arg : String)
    (hz : atoi arg = 0) :
    run_builtin_fg ["fg", arg] oracles s = run_builtin_fg ["fg"] oracles s ∧
    run_builtin_bg ["bg", arg] s = run_builtin_bg ["bg"] s ∧
    (s.bg_jobs ≠ [] →
      job_select s (atoi arg) = some (s.bg_jobs.length - 1)) ∧
    atoi "abc" = 0 ∧ atoi "0" = 0 := by
  refine ⟨?_, ?_, ?_, by decide, by decide⟩
  · show jobs_cmd_fg oracles (atoi arg) s = jobs_cmd_fg oracles 0 s
    rw [hz]
  · show jobs_cmd_bg (atoi arg) s = jobs_cmd_bg 0 s
    rw [hz]
  · intro hne
    rw [hz]
    unfold job_select most_recent_job_index
    rw [if_pos rfl, if_neg (by simpa [List.length_eq_zero] using hne)]

/-- Witness for C10: `fg abc` against a one-job table behaves like plain
`fg` and selects job index 0 (the most recent). -/
theorem fg_bg_atoi_zero_witness :
    atoi "abc" = 0 ∧
    ({ initState with bg_jobs := [⟨1, [⟨5, false, false, "x"⟩], "x", 0⟩] }
        : JobsState).bg_jobs ≠ [] ∧
    run_builtin_fg ["fg", "abc"] []
        { initState with bg_jobs := [⟨1, [⟨5, false, false, "x"⟩], "x", 0⟩] } =
      run_builtin_fg ["fg"] []
        { initState with bg_jobs := [⟨1, [⟨5, false, false, "x"⟩], "x", 0⟩] } ∧
    job_select
        { initState with bg_jobs := [⟨1, [⟨5, false, false, "x"⟩], "x", 0⟩] }
        (atoi "abc") = some 0 :=
  ⟨by decide, by decide,
    (fg_bg_atoi_zero_like_no_argument
      { initState with bg_jobs := [⟨1, [⟨5, false, false, "x"⟩], "x", 0⟩] } []
      "abc" (by decide)).1,
    (fg_bg_atoi_zero_like_no_argument
      { initState with bg_jobs := [⟨1, [⟨5, false, false, "x"⟩], "x", 0⟩] } []
      "abc" (by decide)).2.2.1 (by decide)⟩

/-! ## Claim C6 -/

/-- Output-kind redirections (`>` and `>>`). -/
def isOutRedir : Redir → Bool
  | ⟨RedirType.R_IN, _⟩ => false
  | _ => true

/-- The last output-kind redirection in source order. -/
def lastOutRedir (rs : List Redir) : Option Redir := (rs.filter isOutRedir).getLast?

/-- The last input-kind redirection in source order. -/
def lastInRedir (rs : List Redir) : Option Redir :=
  (rs.filter (fun r => !(isOutRedir r))).getLast?

/-- Stdout binding demanded by "the last output redirection wins". -/
def outBinding (dflt : StdoutDst) (rs : List Redir) : StdoutDst :=
  match lastOutRedir rs with
  | some r => StdoutDst.file r.path (r.rtype == RedirType.R_OUT_APPEND)
  | none => dflt

/-- Stdin binding demanded by "the last input redirection wins". -/
def inBinding (dflt : StdinSrc) (rs : List Redir) : StdinSrc :=
  match lastInRedir rs with
  | some r => StdinSrc.file r.path
  | none => dflt

lemma outBinding_cons_in (path : String) (rest : List Redir) (d : StdoutDst) :
    outBinding d (⟨RedirType.R_IN, path⟩ :: rest) = outBinding d rest := by
  unfold outBinding lastOutRedir
  rw [List.filter_cons]
  simp [isOutRedir]

lemma outBinding_cons_out (r : Redir) (rest : List Redir) (d : StdoutDst)
    (h : isOutRedir r = true) :
    outBinding d (r :: rest) =
      outBinding (StdoutDst.file r.path (r.rtype == RedirType.R_OUT_APPEND)) rest := by
  unfold outBinding lastOutRedir
  rw [List.filter_cons, if_pos h, List.getLast?_cons]
  cases hfl : (rest.filter isOutRedir).getLast? with
  | none => rfl
  | some r2 => rfl

lemma inBinding_cons_in (path : String) (rest : List Redir) (d : StdinSrc) :
    inBinding d (⟨RedirType.R_IN, path⟩ :: rest) =
      inBinding (StdinSrc.file path) rest := by
  unfold inBinding lastInRedir
  rw [List.filter_cons,
    if_pos (show (!(isOutRedir ⟨RedirType.R_IN, path⟩)) = true from rfl),
    List.getLast?_cons]
  cases hfl : (rest.filter (fun r => !(isOutRedir r))).getLast? with
  | none => rfl
  | some r2 => rfl

lemma inBinding_cons_out (r : Redir) (rest : List Redir) (d : StdinSrc)
    (h : isOutRedir r = true) :
    inBinding d (r :: rest) = inBinding d rest := by
  unfold inBinding lastInRedir
  rw [List.filter_cons]
  simp [h]

/-- After the redirection loop succeeds, the child's stdout is bound to
the last output redirection of the list (truncate or append as that
redirection says), and its stdin to the last input redirection — each
defaulting to the pre-existing (pipe or terminal) binding. -/
lemma apply_redirs_last_wins :
    ∀ (rs : List Redir) (fs : FS) (io : StdinSrc × StdoutDst)
      (out : FS × StdinSrc × StdoutDst),
      apply_redirs fs io rs = some out →
      out.2.2 = outBinding io.2 rs ∧ out.2.1 = inBinding io.1 rs := by
  intro rs
  induction rs with
  | nil =>
    intro fs io out h
    cases h
    exact ⟨rfl, rfl⟩
  | cons r rest ih =>
    intro fs io out h
    obtain ⟨rt, path⟩ := r
    cases rt with
    | R_IN =>
      simp only [apply_redirs] at h
      cases hfl : fsLookup fs path with
      | none => rw [hfl] at h; cases h
      | some v =>
        rw [hfl] at h
        obtain ⟨h1, h2⟩ := ih fs (StdinSrc.file path, io.2) out h
        exact ⟨by rw [h1, outBinding_cons_in],
               by rw [h2, inBinding_cons_in]⟩
    | R_OUT_TRUNC =>
      simp only [apply_redirs] at h
      obtain ⟨h1, h2⟩ := ih (fsSet fs path []) (io.1, StdoutDst.file path false) out h
      refine ⟨?_, ?_⟩
      · rw [h1, outBinding_cons_out ⟨RedirType.R_OUT_TRUNC, path⟩ rest io.2 (by rfl)]
        rfl
      · rw [h2, inBinding_cons_out ⟨RedirType.R_OUT_TRUNC, path⟩ rest io.1 (by rfl)]
    | R_OUT_APPEND =>
      simp only [apply_redirs] at h
      obtain ⟨h1, h2⟩ := ih
        (match fsLookup fs path with
         | some _ => fs
         | none => fsSet fs path [])
        (io.1, StdoutDst.file path true) out h
      refine ⟨?_, ?_⟩
      · rw [h1, outBinding_cons_out ⟨RedirType.R_OUT_APPEND, path⟩ rest io.2 (by rfl)]
        rfl
      · rw [h2, inBinding_cons_out ⟨RedirType.R_OUT_APPEND, path⟩ rest io.1 (by rfl)]

/-- C6: redirections are applied after pipe wiring, in source order, so
the last redirection of a given kind is the one in effect (for any
starting pipe/terminal binding `io`); concretely,
`echo hi > f.txt > g.txt` leaves `f.txt` empty (created, truncated) and
writes `hi` only to `g.txt`, and `echo hi >> f.txt` run twice appends
both lines without truncating on the second run. -/
theorem redirections_last_same_kind_wins
    (fs : FS) (io : StdinSrc × StdoutDst) (rs : List Redir)
    (out : FS × StdinSrc × StdoutDst)
    (h : apply_redirs fs io rs = some out) :
    (out.2.2 = outBinding io.2 rs ∧ out.2.1 = inBinding io.1 rs) ∧
    echo_write []
        [⟨RedirType.R_OUT_TRUNC, "f.txt"⟩, ⟨RedirType.R_OUT_TRUNC, "g.txt"⟩] "hi" =
      some [("f.txt", []), ("g.txt", ["hi"])] ∧
    ((echo_write [] [⟨RedirType.R_OUT_APPEND, "f.txt"⟩] "hi").bind
        (fun fs1 => echo_write fs1 [⟨RedirType.R_OUT_APPEND, "f.txt"⟩] "hi")) =
      some [("f.txt", ["hi", "hi"])] :=
  ⟨apply_redirs_last_wins rs fs io out h, by decide, by decide⟩

/-- Witness for C6: a stage reading through a pipe whose two output
redirections resolve to the second file. -/
theorem redirections_last_wins_witness :
    apply_redirs [] (StdinSrc.pipeIn 3, StdoutDst.pipeOut 4)
        [⟨RedirType.R_OUT_TRUNC, "f.txt"⟩, ⟨RedirType.R_OUT_TRUNC, "g.txt"⟩] =
      some ([("f.txt", []), ("g.txt", [])],
        StdinSrc.pipeIn 3, StdoutDst.file "g.txt" false) ∧
    (StdoutDst.file "g.txt" false =
        outBinding (StdoutDst.pipeOut 4)
          [⟨RedirType.R_OUT_TRUNC, "f.txt"⟩, ⟨RedirType.R_OUT_TRUNC, "g.txt"⟩] ∧
      StdinSrc.pipeIn 3 =
        inBinding (StdinSrc.pipeIn 3)
          [⟨RedirType.R_OUT_TRUNC, "f.txt"⟩, ⟨RedirType.R_OUT_TRUNC, "g.txt"⟩]) :=
  ⟨by decide,
    (redirections_last_same_kind_wins [] (StdinSrc.pipeIn 3, StdoutDst.pipeOut 4)
      [⟨RedirType.R_OUT_TRUNC, "f.txt"⟩, ⟨RedirType.R_OUT_TRUNC, "g.txt"⟩]
      ([("f.txt", []), ("g.txt", [])], StdinSrc.pipeIn 3, StdoutDst.file "g.txt" false)
      (by decide)).1⟩

end CShell
